import Mathlib

/-!
Shallow embedding of `src/crypto/EncryptionSetup.js` (matrix-js-sdk):
the accumulation/snapshot/replay mechanism for encryption bootstrap.

Embedded components:
* `AccountDataClientAdapter` (pending/existing account-data overlay with
  deferred "accountData" emission),
* `EncryptionSetupBuilder.buildOperation` / `EncryptionSetupOperation.apply`
  (modelled with an explicit heap of maps, because `buildOperation` passes
  the adapter's `_values` Map by reference),
* `CrossSigningCallbacks` (cache-shape and authoritative-shape access to one
  private-key map),
* `SSSSCryptoCallbacks` (secret-storage key resolution).

JavaScript `Map` objects are modelled as insertion-ordered association
lists (`setIns` keeps the position of the first insertion, as `Map.set`
does); JS values are modelled by `JsVal` with JS truthiness, because
`getAccountData` branches on `if (modifiedValue)`.
-/

namespace EncryptionSetup

/-- A JS value, as far as this module observes it: `getAccountData` only
tests truthiness, everything else is passed through opaquely.  Objects and
arrays are collapsed to an opaque identity (they are always truthy). -/
inductive JsVal where
  | null
  | undef
  | bool (b : Bool)
  | num (n : Int)
  | str (s : String)
  | obj (id : Nat)
deriving DecidableEq, Repr

/-- JS truthiness of a `JsVal`. -/
def truthy : JsVal → Bool
  | .null => false
  | .undef => false
  | .bool b => b
  | .num n => n != 0
  | .str s => s != ""
  | .obj _ => true

/-- `Map.prototype.get`: first (and only) binding of a key in an
insertion-ordered association list; `none` models `undefined`. -/
def mapGet {α : Type} : List (String × α) → String → Option α
  | [], _ => none
  | (k, v) :: rest, t => if k = t then some v else mapGet rest t

/-- `Map.prototype.set`: overwrite in place when the key is present
(keeping the position of its first insertion), otherwise append. -/
def setIns {α : Type} : List (String × α) → String → α → List (String × α)
  | [], t, c => [(t, c)]
  | (k, v) :: rest, t, c =>
      if k = t then (k, c) :: rest else (k, v) :: setIns rest t c

/-- State of one `AccountDataClientAdapter` together with its inherited
`EventEmitter` state and the microtask queue that
`Promise.resolve().then(...)` in `setAccountData` schedules onto.
`existingValues` models the constructor argument (a type-to-event object;
we record each event by the content its `getContent()` returns);
`values` models the `_values` Map of pending writes;
`tasks` holds the scheduled, not yet delivered, `accountData` emissions;
`listeners` holds the subscribers to the `accountData` event, in
registration order. -/
structure AdapterState where
  existingValues : List (String × JsVal)
  values : List (String × JsVal)
  tasks : List (String × JsVal)
  listeners : List Nat
deriving DecidableEq, Repr

/-- `new AccountDataClientAdapter(accountData)`. -/
def mkAdapter (accountData : List (String × JsVal)) : AdapterState :=
  { existingValues := accountData, values := [], tasks := [], listeners := [] }

/-- Lines 119-123 of the source: fall back to
`this._existingValues[type].getContent()` when present, else `null`.
An existing entry is a `MatrixEvent` object, hence truthy whenever the
property is present. -/
def existingContent (existingValues : List (String × JsVal)) (type : String) : JsVal :=
  match mapGet existingValues type with
  | some content => content
  | none => JsVal.null

/-- `AccountDataClientAdapter.getAccountData(type)`: return the pending
value when `if (modifiedValue)` holds (JS truthiness, with `undefined`
for an absent key being falsy), else the existing entry's content when
present, else `null`. -/
def getAccountData (s : AdapterState) (type : String) : JsVal :=
  match mapGet s.values type with
  | some modifiedValue =>
      if truthy modifiedValue then modifiedValue
      else existingContent s.existingValues type
  | none => existingContent s.existingValues type

/-- `AccountDataClientAdapter.getAccountDataFromServer(type)`:
`Promise.resolve(this.getAccountData(type))` — the resolved value of the
promise, which is all callers can observe. -/
def getAccountDataFromServer (s : AdapterState) (type : String) : JsVal :=
  getAccountData s type

/-- `AccountDataClientAdapter.setAccountData(type, content)`: record the
pending value synchronously in `_values`, and schedule (via
`Promise.resolve().then`) one deferred emission of an `accountData` event
built from `{type, content}`. -/
def setAccountData (s : AdapterState) (type : String) (content : JsVal) : AdapterState :=
  { s with
    values := setIns s.values type content,
    tasks := s.tasks ++ [(type, content)] }

/-- `adapter.on("accountData", listener)` (inherited from `EventEmitter`):
append a subscriber. -/
def subscribe (s : AdapterState) (l : Nat) : AdapterState :=
  { s with listeners := s.listeners ++ [l] }

/-- The deliveries performed when the microtask queue is flushed at the
next scheduling boundary: each queued emission, in queue order, is handed
to every listener registered at flush time, in registration order.  A
delivery `(l, (type, content))` means listener `l` receives the
`MatrixEvent` built from `{type, content}`. -/
def flushDeliveries (s : AdapterState) : List (Nat × (String × JsVal)) :=
  s.tasks.flatMap (fun tc => s.listeners.map (fun l => (l, tc)))

/-- The adapter state after the microtask queue has been flushed. -/
def flush (s : AdapterState) : AdapterState :=
  { s with tasks := [] }

/-- The events a particular listener receives, in delivery order. -/
def deliveredTo (l : Nat) (ds : List (Nat × (String × JsVal))) : List (String × JsVal) :=
  ds.filterMap (fun p => if p.1 = l then some p.2 else none)

/-- A sequence of `setAccountData` calls, in order. -/
def writeAll (s : AdapterState) (ws : List (String × JsVal)) : AdapterState :=
  ws.foldl (fun s tc => setAccountData s tc.1 tc.2) s

/-! ## EncryptionSetupOperation and apply -/

/-- A network request to `crypto._baseApis`.  `setAccountData` is the only
request `apply` issues in the source; the other constructors are the
natural replay requests for the remaining captured material (which the
source never issues), included so that "no other network calls" is a
contentful statement about the trace. -/
inductive NetCall where
  | setAccountData (type : String) (content : JsVal)
  | uploadDeviceSigningKeys (keys : JsVal)
  | uploadKeySignatures (signatures : JsVal)
  | createKeyBackupVersion (info : JsVal)
deriving DecidableEq, Repr

/-- The captured state of an `EncryptionSetupOperation`: the constructor's
four arguments.  `accountData` is `none` when the constructor received a
falsy value (the `if (this._accountData)` guard in `apply`), otherwise the
entries of the Map in insertion order.  The other three captures are held
opaquely, exactly as the constructor stores them. -/
structure Operation where
  accountData : Option (List (String × JsVal))
  crossSigningKeys : Option JsVal
  keyBackupInfo : Option JsVal
  keySignatures : Option JsVal
deriving DecidableEq, Repr

/-- Outcome of one `baseApis.setAccountData` call: the network client
either fulfills the promise or rejects it with an error message.  The
client is indexed by the position of the call within the `apply`
invocation, so a recording fake can fail on the k-th call. -/
def ClientBehavior : Type := Nat → String → JsVal → Except String Unit

/-- The `for (const [type, content] of this._accountData)` loop of
`apply`: issue `await baseApis.setAccountData(type, content)` for each
entry in order; a rejection propagates out of `apply` at once, so later
entries are never attempted.  Returns the trace of issued calls together
with the settled outcome of the returned promise. -/
def applyGo (client : ClientBehavior) :
    Nat → List (String × JsVal) → List NetCall × Except String Unit
  | _, [] => ([], Except.ok ())
  | i, (type, content) :: rest =>
      match client i type content with
      | Except.ok _ =>
          let r := applyGo client (i + 1) rest
          (NetCall.setAccountData type content :: r.1, r.2)
      | Except.error e => ([NetCall.setAccountData type content], Except.error e)

/-- `EncryptionSetupOperation.apply(crypto)`: replay the captured
account-data entries sequentially; nothing else is sent. -/
def applyOp (client : ClientBehavior) (op : Operation) :
    List NetCall × Except String Unit :=
  match op.accountData with
  | some entries => applyGo client 0 entries
  | none => ([], Except.ok ())

/-! ## Builder / operation aliasing

`buildOperation` passes `this.accountDataClientAdapter._values` — the very
Map object the adapter keeps mutating — into the operation.  To make that
sharing observable we model the Map objects in a small explicit heap:
an address is an index into the heap's list of maps, the builder's adapter
holds the address of its `_values` Map, and `buildOperation` stores that
same address in the operation it returns. -/

/-- The heap of live JS `Map` objects; an address is an index. -/
structure Heap where
  maps : List (List (String × JsVal))
deriving DecidableEq, Repr

/-- Dereference a Map address. -/
def heapGet (h : Heap) (a : Nat) : List (String × JsVal) :=
  (h.maps[a]?).getD []

/-- Replace the Map stored at an address. -/
def heapSet (h : Heap) (a : Nat) (m : List (String × JsVal)) : Heap :=
  ⟨h.maps.set a m⟩

/-- The parts of an `EncryptionSetupBuilder` this model needs: the address
of its adapter's `_values` Map, plus the three capture fields. -/
structure BuilderRef where
  valuesAddr : Nat
  crossSigningKeys : Option JsVal
  keyBackupInfo : Option JsVal
  keySignatures : Option JsVal
deriving DecidableEq, Repr

/-- `EncryptionSetupBuilder.setAccountData(type, content)` (delegating to
the adapter): mutate the `_values` Map in place on the heap.  (The
deferred emission is modelled separately on `AdapterState`; it does not
touch the Map.) -/
def builderSetAccountData (h : Heap) (b : BuilderRef) (type : String) (content : JsVal) :
    Heap :=
  heapSet h b.valuesAddr (setIns (heapGet h b.valuesAddr) type content)

/-- An `EncryptionSetupOperation` as built by `buildOperation`: the
`_accountData` field holds a reference to a Map on the heap. -/
structure OperationRef where
  accountDataAddr : Nat
  crossSigningKeys : Option JsVal
  keyBackupInfo : Option JsVal
  keySignatures : Option JsVal
deriving DecidableEq, Repr

/-- `EncryptionSetupBuilder.buildOperation()`:
`const accountData = this.accountDataClientAdapter._values;` — the
operation receives the same Map reference, not a copy, together with the
three capture fields. -/
def buildOperation (b : BuilderRef) : OperationRef :=
  { accountDataAddr := b.valuesAddr,
    crossSigningKeys := b.crossSigningKeys,
    keyBackupInfo := b.keyBackupInfo,
    keySignatures := b.keySignatures }

/-- The observable replay set of a built operation: the entries of the Map
its `_accountData` reference points at, which is what `apply` iterates. -/
def opReplaySet (h : Heap) (op : OperationRef) : List (String × JsVal) :=
  heapGet h op.accountDataAddr

/-! ## CrossSigningCallbacks -/

/-- A private-key value (an opaque byte array; always a truthy JS value). -/
abbrev Key : Type := List Nat

/-- State of a `CrossSigningCallbacks` instance: the single backing
`privateKeys` Map read and written by both capability shapes. -/
structure CrossSigningState where
  privateKeys : List (String × Key)
deriving DecidableEq, Repr

/-- `getCrossSigningKey(type, _expectedPubkey)` (authoritative shape):
`Promise.resolve(this.privateKeys.get(type))`; the expected public key is
ignored. -/
def getCrossSigningKey (s : CrossSigningState) (type : String)
    (_expectedPubkey : String) : Option Key :=
  mapGet s.privateKeys type

/-- `getCrossSigningKeyCache(type, expectedPublicKey)` (cache shape):
delegates to `getCrossSigningKey`. -/
def getCrossSigningKeyCache (s : CrossSigningState) (type : String)
    (expectedPublicKey : String) : Option Key :=
  getCrossSigningKey s type expectedPublicKey

/-- `storeCrossSigningKeyCache(type, key)` (cache shape): write into the
backing Map. -/
def storeCrossSigningKeyCache (s : CrossSigningState) (type : String) (key : Key) :
    CrossSigningState :=
  { privateKeys := setIns s.privateKeys type key }

/-- `saveCrossSigningKeys(privateKeys)` (authoritative shape): a single
synchronous loop over `Object.entries(privateKeys)` writing each pair into
the backing Map; there is no suspension point inside the loop. -/
def saveCrossSigningKeys (s : CrossSigningState) (privateKeys : List (String × Key)) :
    CrossSigningState :=
  { privateKeys :=
      privateKeys.foldl (fun m p => setIns m p.1 p.2) s.privateKeys }

/-! ## SSSSCryptoCallbacks -/

/-- State of an `SSSSCryptoCallbacks` instance: the `_privateKeys` Map. -/
structure SSSSState where
  privateKeys : List (String × Key)
deriving DecidableEq, Repr

/-- `addPrivateKey(keyId, privKey)`. -/
def addPrivateKey (s : SSSSState) (keyId : String) (privKey : Key) : SSSSState :=
  { privateKeys := setIns s.privateKeys keyId privKey }

/-- `getSecretStorageKey({ keys }, name)`: iterate `Object.keys(keys)` (the
descriptor's candidate key IDs, in insertion order) and return the first
`[keyId, privateKey]` whose key this cache holds; with no match the
function falls off the end, returning `undefined` (`none`).  A held key is
a `Uint8Array`, which is always truthy, so the `if (privateKey)` test is
presence of the Map entry.  `name` is never consulted. -/
def getSecretStorageKey (s : SSSSState) (descriptorKeys : List String)
    (name : String) : Option (String × Key) :=
  match descriptorKeys with
  | [] => none
  | keyId :: rest =>
      match mapGet s.privateKeys keyId with
      | some privateKey => some (keyId, privateKey)
      | none => getSecretStorageKey s rest name

/-! ## Lemmas about the insertion-ordered map -/

theorem mapGet_setIns_self {α : Type} (m : List (String × α)) (t : String) (c : α) :
    mapGet (setIns m t c) t = some c := by
  induction m with
  | nil => simp [setIns, mapGet]
  | cons kv rest ih =>
      obtain ⟨k, v⟩ := kv
      by_cases hk : k = t
      · simp [setIns, hk, mapGet]
      · simp [setIns, hk, mapGet, ih]

theorem mapGet_setIns_ne {α : Type} (m : List (String × α)) (t t' : String) (c : α)
    (h : t' ≠ t) : mapGet (setIns m t c) t' = mapGet m t' := by
  induction m with
  | nil => simp [setIns, mapGet, Ne.symm h]
  | cons kv rest ih =>
      obtain ⟨k, v⟩ := kv
      by_cases hk : k = t
      · subst hk
        simp [setIns, mapGet, Ne.symm h]
      · simp only [setIns, if_neg hk, mapGet]
        by_cases hk' : k = t'
        · simp [hk']
        · simp [hk', ih]

theorem setIns_setIns_same {α : Type} (m : List (String × α)) (t : String) (c₁ c₂ : α) :
    setIns (setIns m t c₁) t c₂ = setIns m t c₂ := by
  induction m with
  | nil => simp [setIns]
  | cons kv rest ih =>
      obtain ⟨k, v⟩ := kv
      by_cases hk : k = t
      · simp [setIns, hk]
      · simp [setIns, hk, ih]

theorem keys_setIns_indep {α : Type} (m : List (String × α)) (t : String) (c c' : α) :
    (setIns m t c).map Prod.fst = (setIns m t c').map Prod.fst := by
  induction m with
  | nil => simp [setIns]
  | cons kv rest ih =>
      obtain ⟨k, v⟩ := kv
      by_cases hk : k = t
      · simp [setIns, hk]
      · simp [setIns, hk, ih]

theorem mapGet_eq_none_of_not_mem_keys {α : Type} (m : List (String × α)) (t : String)
    (h : t ∉ m.map Prod.fst) : mapGet m t = none := by
  induction m with
  | nil => simp [mapGet]
  | cons kv rest ih =>
      obtain ⟨k, v⟩ := kv
      simp only [List.map_cons, List.mem_cons] at h
      push_neg at h
      simp [mapGet, Ne.symm h.1, ih h.2]

theorem filter_eq_nil_of_not_mem_keys {α : Type} (m : List (String × α)) (t : String)
    (h : t ∉ m.map Prod.fst) :
    m.filter (fun p => p.1 = t) = [] := by
  induction m with
  | nil => simp
  | cons kv rest ih =>
      obtain ⟨k, v⟩ := kv
      simp only [List.map_cons, List.mem_cons] at h
      push_neg at h
      simp [List.filter_cons, Ne.symm h.1, ih h.2]

theorem filter_setIns_self {α : Type} (m : List (String × α)) (t : String) (c : α)
    (h : (m.map Prod.fst).Nodup) :
    (setIns m t c).filter (fun p => p.1 = t) = [(t, c)] := by
  induction m with
  | nil => simp [setIns]
  | cons kv rest ih =>
      obtain ⟨k, v⟩ := kv
      simp only [List.map_cons, List.nodup_cons] at h
      by_cases hk : k = t
      · subst hk
        simp [setIns, List.filter_cons, filter_eq_nil_of_not_mem_keys rest k h.1]
      · simp [setIns, hk, List.filter_cons, ih h.2]

theorem keys_setIns_mem_iff {α : Type} (m : List (String × α)) (t : String) (c : α)
    (x : String) : x ∈ (setIns m t c).map Prod.fst ↔ x = t ∨ x ∈ m.map Prod.fst := by
  induction m with
  | nil => simp [setIns]
  | cons kv rest ih =>
      obtain ⟨k, v⟩ := kv
      by_cases hk : k = t
      · subst hk
        simp [setIns]
      · simp [setIns, hk, ih]
        tauto

theorem nodup_keys_setIns {α : Type} (m : List (String × α)) (t : String) (c : α)
    (h : (m.map Prod.fst).Nodup) : ((setIns m t c).map Prod.fst).Nodup := by
  induction m with
  | nil => simp [setIns]
  | cons kv rest ih =>
      obtain ⟨k, v⟩ := kv
      simp only [List.map_cons, List.nodup_cons] at h
      by_cases hk : k = t
      · subst hk
        have hred : setIns ((k, v) :: rest) k c = (k, c) :: rest := by simp [setIns]
        rw [hred]
        simp only [List.map_cons, List.nodup_cons]
        exact ⟨h.1, h.2⟩
      · simp only [setIns, if_neg hk, List.map_cons, List.nodup_cons]
        refine ⟨fun hmem => ?_, ih h.2⟩
        rcases (keys_setIns_mem_iff rest t c k).mp hmem with h' | h'
        · exact hk h'
        · exact h.1 h'

/-! ## Lemmas about apply -/

theorem applyGo_all_ok (client : ClientBehavior)
    (hok : ∀ i t c, client i t c = Except.ok ()) :
    ∀ (entries : List (String × JsVal)) (i : Nat),
      applyGo client i entries
        = (entries.map (fun p => NetCall.setAccountData p.1 p.2), Except.ok ()) := by
  intro entries
  induction entries with
  | nil => intro i; simp [applyGo]
  | cons tc rest ih =>
      intro i
      obtain ⟨t, c⟩ := tc
      simp [applyGo, hok i t c, ih (i + 1)]

theorem applyGo_fail_at (client : ClientBehavior) (t : String) (c : JsVal)
    (e : String) :
    ∀ (pre : List (String × JsVal)) (i : Nat)
      (_ : ∀ j t' c', j < pre.length → client (i + j) t' c' = Except.ok ())
      (_ : client (i + pre.length) t c = Except.error e)
      (post : List (String × JsVal)),
      applyGo client i (pre ++ (t, c) :: post)
        = ((pre ++ [(t, c)]).map (fun p => NetCall.setAccountData p.1 p.2),
           Except.error e) := by
  intro pre
  induction pre with
  | nil =>
      intro i hok hfail post
      simp only [List.length_nil, Nat.add_zero] at hfail
      simp [applyGo, hfail]
  | cons tc0 pre' ih =>
      intro i hok hfail post
      obtain ⟨t0, c0⟩ := tc0
      have h0 : client i t0 c0 = Except.ok () := by
        have := hok 0 t0 c0 (by simp)
        simpa using this
      have hok' : ∀ j t' c', j < pre'.length → client (i + 1 + j) t' c' = Except.ok () := by
        intro j t' c' hj
        have := hok (j + 1) t' c' (by simpa using Nat.succ_lt_succ hj)
        have harith : i + (j + 1) = i + 1 + j := by omega
        rwa [harith] at this
      have hfail' : client (i + 1 + pre'.length) t c = Except.error e := by
        have harith : i + ((t0, c0) :: pre').length = i + 1 + pre'.length := by
          simp; omega
        rwa [harith] at hfail
      simp [applyGo, h0, ih (i + 1) hok' hfail' post]

/-! ## Lemmas about the adapter's write sequence and deliveries -/

theorem writeAll_tasks (ws : List (String × JsVal)) :
    ∀ s : AdapterState, (writeAll s ws).tasks = s.tasks ++ ws := by
  induction ws with
  | nil => intro s; simp [writeAll]
  | cons tc rest ih =>
      intro s
      obtain ⟨t, c⟩ := tc
      simp [writeAll] at ih ⊢
      rw [ih (setAccountData s t c)]
      simp [setAccountData]

theorem writeAll_listeners (ws : List (String × JsVal)) :
    ∀ s : AdapterState, (writeAll s ws).listeners = s.listeners := by
  induction ws with
  | nil => intro s; simp [writeAll]
  | cons tc rest ih =>
      intro s
      obtain ⟨t, c⟩ := tc
      simp [writeAll] at ih ⊢
      rw [ih (setAccountData s t c)]
      simp [setAccountData]

theorem deliveredTo_append (l : Nat) (a b : List (Nat × (String × JsVal))) :
    deliveredTo l (a ++ b) = deliveredTo l a ++ deliveredTo l b := by
  simp [deliveredTo, List.filterMap_append]

theorem deliveredTo_block_not_mem (l : Nat) (ls : List Nat) (tc : String × JsVal)
    (h : l ∉ ls) :
    deliveredTo l (ls.map (fun l' => (l', tc))) = [] := by
  induction ls with
  | nil => simp [deliveredTo]
  | cons l0 rest ih =>
      simp only [List.mem_cons] at h
      push_neg at h
      have htail := ih h.2
      simp only [deliveredTo] at htail
      simp [deliveredTo, List.filterMap_cons, Ne.symm h.1, htail]

theorem deliveredTo_block_subscribed (l : Nat) (ls : List Nat) (tc : String × JsVal)
    (h : l ∉ ls) :
    deliveredTo l ((ls ++ [l]).map (fun l' => (l', tc))) = [tc] := by
  rw [List.map_append, deliveredTo_append, deliveredTo_block_not_mem l ls tc h]
  simp [deliveredTo]

theorem deliveredTo_flatMap_subscribed (l : Nat) (ls : List Nat)
    (h : l ∉ ls) :
    ∀ tasks : List (String × JsVal),
      deliveredTo l (tasks.flatMap (fun tc => (ls ++ [l]).map (fun l' => (l', tc))))
        = tasks := by
  intro tasks
  induction tasks with
  | nil => simp [deliveredTo]
  | cons tc rest ih =>
      simp only [List.flatMap_cons]
      rw [deliveredTo_append, deliveredTo_block_subscribed l ls tc h, ih]
      simp

/-! ## Lemmas about saveCrossSigningKeys' fold -/

theorem foldl_setIns_get_not_mem {α : Type} (t : String)
    (pks : List (String × α)) (h : t ∉ pks.map Prod.fst) :
    ∀ m₀ : List (String × α),
      mapGet (pks.foldl (fun m p => setIns m p.1 p.2) m₀) t = mapGet m₀ t := by
  induction pks with
  | nil => intro m₀; simp
  | cons p rest ih =>
      intro m₀
      obtain ⟨t0, k0⟩ := p
      simp only [List.map_cons, List.mem_cons] at h
      push_neg at h
      simp only [List.foldl_cons]
      rw [ih h.2 (setIns m₀ t0 k0), mapGet_setIns_ne m₀ t0 t k0 h.1]

theorem foldl_setIns_get_mem {α : Type} (t : String) (k : α)
    (pks : List (String × α)) (hnd : (pks.map Prod.fst).Nodup)
    (hmem : (t, k) ∈ pks) :
    ∀ m₀ : List (String × α),
      mapGet (pks.foldl (fun m p => setIns m p.1 p.2) m₀) t = some k := by
  induction pks with
  | nil => simp at hmem
  | cons p rest ih =>
      intro m₀
      obtain ⟨t0, k0⟩ := p
      simp only [List.map_cons, List.nodup_cons] at hnd
      simp only [List.foldl_cons]
      rcases List.mem_cons.mp hmem with heq | hmem'
      · injection heq with ht hk
        subst ht
        subst hk
        rw [foldl_setIns_get_not_mem t rest hnd.1 (setIns m₀ t k)]
        exact mapGet_setIns_self m₀ t k
      · exact ih hnd.2 hmem' (setIns m₀ t0 k0)

/-! ## Lemmas about secret-storage resolution and the heap -/

theorem getSecretStorageKey_name_irrel (s : SSSSState) (ids : List String)
    (n₁ n₂ : String) :
    getSecretStorageKey s ids n₁ = getSecretStorageKey s ids n₂ := by
  induction ids with
  | nil => simp [getSecretStorageKey]
  | cons kid rest ih =>
      cases hm : mapGet s.privateKeys kid <;>
        simp [getSecretStorageKey, hm, ih]

theorem getSecretStorageKey_none (s : SSSSState) (n : String) :
    ∀ ids : List String, (∀ j ∈ ids, mapGet s.privateKeys j = none) →
      getSecretStorageKey s ids n = none := by
  intro ids
  induction ids with
  | nil => intro _; simp [getSecretStorageKey]
  | cons kid rest ih =>
      intro h
      have hk := h kid (by simp)
      simp only [getSecretStorageKey, hk]
      exact ih (fun j hj => h j (List.mem_cons_of_mem _ hj))

theorem getSecretStorageKey_first (s : SSSSState) (n : String) (kid : String) (k : Key) :
    ∀ (pre post : List String),
      (∀ j ∈ pre, mapGet s.privateKeys j = none) →
      mapGet s.privateKeys kid = some k →
      getSecretStorageKey s (pre ++ kid :: post) n = some (kid, k) := by
  intro pre
  induction pre with
  | nil =>
      intro post _ hk
      simp [getSecretStorageKey, hk]
  | cons j0 pre' ih =>
      intro post hpre hk
      have hj0 := hpre j0 (by simp)
      simp only [List.cons_append, getSecretStorageKey, hj0]
      exact ih post (fun j hj => hpre j (List.mem_cons_of_mem _ hj)) hk

theorem heapGet_heapSet_self (h : Heap) (a : Nat) (m : List (String × JsVal))
    (ha : a < h.maps.length) : heapGet (heapSet h a m) a = m := by
  simp [heapGet, heapSet, List.getElem?_set_self ha]

/-! ## Claim theorems -/

/-- Claim C2: for every captured pending-account-data mapping, `apply`
invokes the network client's `setAccountData` exactly once per captured
`(type, content)` entry, in the mapping's order (the trace equals the entry
list, call for call), sequentially — `applyGo` only issues the next call
after the previous promise fulfilled — and performs no other network call:
whatever the captured cross-signing keys, key-backup info and key-signatures
are, the trace consists of `NetCall.setAccountData` requests only, so those
captures are never replayed.  `applyOp` is a pure function of the immutable
operation value, so every invocation, regardless of previous ones, produces
this same call sequence. -/
theorem C2_apply_replays_exactly_account_data
    (entries : List (String × JsVal)) (csk kbi ks : Option JsVal)
    (client : ClientBehavior)
    (hok : ∀ i t c, client i t c = Except.ok ()) :
    applyOp client ⟨some entries, csk, kbi, ks⟩
      = (entries.map (fun p => NetCall.setAccountData p.1 p.2), Except.ok ()) := by
  simp [applyOp, applyGo_all_ok client hok entries 0]

/-- Witness for C2: a two-entry capture (with all three other captures
present) is replayed as exactly its two account-data calls, in order. -/
theorem C2_apply_replays_exactly_account_data_witness :
    applyOp (fun _ _ _ => Except.ok ())
        ⟨some [("m.cross_signing.master", JsVal.obj 1),
               ("m.megolm_backup.v1", JsVal.obj 2)],
         some (JsVal.obj 3), some (JsVal.obj 4), some (JsVal.obj 5)⟩
      = ([NetCall.setAccountData "m.cross_signing.master" (JsVal.obj 1),
          NetCall.setAccountData "m.megolm_backup.v1" (JsVal.obj 2)],
         Except.ok ()) :=
  C2_apply_replays_exactly_account_data
    [("m.cross_signing.master", JsVal.obj 1), ("m.megolm_backup.v1", JsVal.obj 2)]
    (some (JsVal.obj 3)) (some (JsVal.obj 4)) (some (JsVal.obj 5))
    (fun _ _ _ => Except.ok ()) (fun _ _ _ => rfl)

/-- Claim C3: if the network write for the k-th captured entry fails during
`apply`, the failure is propagated to the caller (`apply`'s result is that
error), the calls for all entries before the k-th were issued and are not
rolled back (they remain in the trace, and the model has no rollback
request), and no entry after the k-th is ever attempted in that call (the
trace ends with the failing call). -/
theorem C3_apply_failure_stops_and_propagates
    (pre post : List (String × JsVal)) (t : String) (c : JsVal) (e : String)
    (csk kbi ks : Option JsVal) (client : ClientBehavior)
    (hok : ∀ j t' c', j < pre.length → client j t' c' = Except.ok ())
    (hfail : client pre.length t c = Except.error e) :
    applyOp client ⟨some (pre ++ (t, c) :: post), csk, kbi, ks⟩
      = ((pre ++ [(t, c)]).map (fun p => NetCall.setAccountData p.1 p.2),
         Except.error e) := by
  have hok' : ∀ j t' c', j < pre.length → client (0 + j) t' c' = Except.ok () := by
    intro j t' c' hj
    rw [Nat.zero_add]
    exact hok j t' c' hj
  have hfail' : client (0 + pre.length) t c = Except.error e := by
    rw [Nat.zero_add]
    exact hfail
  have h := applyGo_fail_at client t c e pre 0 hok' hfail' post
  simpa [applyOp] using h

/-- Witness for C3, the spec's mid-replay failure scenario: three captured
entries, the client rejects the second; exactly the first entry was sent
before it, the third was never attempted, and `apply` surfaces the error. -/
theorem C3_apply_failure_stops_and_propagates_witness :
    applyOp (fun i _ _ => if i = 1 then Except.error "M_UNKNOWN" else Except.ok ())
        ⟨some [("m.first", JsVal.obj 1), ("m.second", JsVal.obj 2),
               ("m.third", JsVal.obj 3)],
         none, none, none⟩
      = ([NetCall.setAccountData "m.first" (JsVal.obj 1),
          NetCall.setAccountData "m.second" (JsVal.obj 2)],
         Except.error "M_UNKNOWN") :=
  C3_apply_failure_stops_and_propagates
    [("m.first", JsVal.obj 1)] [("m.third", JsVal.obj 3)]
    "m.second" (JsVal.obj 2) "M_UNKNOWN" none none none
    (fun i _ _ => if i = 1 then Except.error "M_UNKNOWN" else Except.ok ())
    (by
      intro j t' c' hj
      have hj0 : j = 0 := by simpa using hj
      subst hj0
      rfl)
    rfl

/-- Claim C4 counterexample: the claim "after write(t, c), read(t) returns
c, for every content c" fails for a falsy content.  With an existing entry
of content `obj 7` for the type, writing the pending content `null` makes
`read` return the existing `obj 7`, not the written `null`, because
`getAccountData` guards the pending value with `if (modifiedValue)`. -/
theorem C4_read_counterexample :
    getAccountData
        (setAccountData (mkAdapter [("m.secret_storage.key", JsVal.obj 7)])
          "m.secret_storage.key" JsVal.null)
        "m.secret_storage.key" = JsVal.obj 7
    ∧ JsVal.obj 7 ≠ JsVal.null := by
  constructor
  · rfl
  · decide

/-- Claim C4 (amended): `read(t)` returns the pending value whenever a
pending value is recorded for `t` and that value is truthy (in particular,
immediately after `write(t, c)` for truthy `c`, before any network call);
when no pending value was ever written it returns the existing entry's
content if present and `null` (absent) otherwise; and pending and existing
are never merged field-by-field — the result is always verbatim one of the
pending value, the existing content, or `null`. -/
theorem C4_amended_read_overlay (s : AdapterState) (t : String) (c : JsVal) :
    (truthy c = true → getAccountData (setAccountData s t c) t = c)
    ∧ (∀ v, mapGet s.values t = some v → truthy v = true → getAccountData s t = v)
    ∧ (mapGet s.values t = none →
        (∀ e, mapGet s.existingValues t = some e → getAccountData s t = e)
        ∧ (mapGet s.existingValues t = none → getAccountData s t = JsVal.null))
    ∧ ((∃ v, mapGet s.values t = some v ∧ getAccountData s t = v)
        ∨ (∃ e, mapGet s.existingValues t = some e ∧ getAccountData s t = e)
        ∨ getAccountData s t = JsVal.null) := by
  refine ⟨?_, ?_, ?_, ?_⟩
  · intro hc
    simp [getAccountData, setAccountData, mapGet_setIns_self, hc]
  · intro v hv htr
    simp [getAccountData, hv, htr]
  · intro hv
    constructor
    · intro e he
      simp [getAccountData, hv, existingContent, he]
    · intro he
      simp [getAccountData, hv, existingContent, he]
  · rcases hv : mapGet s.values t with _ | v
    · rcases he : mapGet s.existingValues t with _ | e
      · right; right
        simp [getAccountData, hv, existingContent, he]
      · right; left
        exact ⟨e, rfl, by simp [getAccountData, hv, existingContent, he]⟩
    · by_cases htr : truthy v = true
      · left
        exact ⟨v, rfl, by simp [getAccountData, hv, htr]⟩
      · rcases he : mapGet s.existingValues t with _ | e
        · right; right
          simp [getAccountData, hv, htr, existingContent, he]
        · right; left
          exact ⟨e, rfl, by simp [getAccountData, hv, htr, existingContent, he]⟩

/-- Witness for the amended C4: a truthy write is read back; a never-written
type reads the existing content; a type absent from both reads `null`. -/
theorem C4_amended_read_overlay_witness :
    getAccountData
        (setAccountData (mkAdapter [("m.foo", JsVal.obj 1)]) "m.bar" (JsVal.obj 2))
        "m.bar" = JsVal.obj 2
    ∧ getAccountData (mkAdapter [("m.foo", JsVal.obj 1)]) "m.foo" = JsVal.obj 1
    ∧ getAccountData (mkAdapter [("m.foo", JsVal.obj 1)]) "m.baz" = JsVal.null :=
  ⟨(C4_amended_read_overlay (mkAdapter [("m.foo", JsVal.obj 1)]) "m.bar"
      (JsVal.obj 2)).1 rfl,
   ((C4_amended_read_overlay (mkAdapter [("m.foo", JsVal.obj 1)]) "m.foo"
      (JsVal.obj 2)).2.2.1 rfl).1 (JsVal.obj 1) rfl,
   ((C4_amended_read_overlay (mkAdapter [("m.foo", JsVal.obj 1)]) "m.baz"
      (JsVal.obj 2)).2.2.1 rfl).2 rfl⟩

/-- Claim C10: if the pending value recorded for a type is falsy (such as
`null` or `false`), `getAccountData` and `getAccountDataFromServer` ignore
that pending entry and return the existing entry's content if present, else
`null` (absent): the pending-shadows-existing rule only applies to a truthy
stored pending content. -/
theorem C10_falsy_pending_ignored (s : AdapterState) (t : String) (c : JsVal)
    (hfalsy : truthy c = false) (hpend : mapGet s.values t = some c) :
    (∀ e, mapGet s.existingValues t = some e →
        getAccountData s t = e ∧ getAccountDataFromServer s t = e)
    ∧ (mapGet s.existingValues t = none →
        getAccountData s t = JsVal.null ∧ getAccountDataFromServer s t = JsVal.null) := by
  constructor
  · intro e he
    constructor <;>
      simp [getAccountData, getAccountDataFromServer, hpend, hfalsy,
            existingContent, he]
  · intro he
    constructor <;>
      simp [getAccountData, getAccountDataFromServer, hpend, hfalsy,
            existingContent, he]

/-- Witness for C10: after writing the falsy pending content `false` over
an existing entry of content `obj 3`, both read operations return `obj 3`;
with no existing entry, both return `null`. -/
theorem C10_falsy_pending_ignored_witness :
    (getAccountData
        (setAccountData (mkAdapter [("m.a", JsVal.obj 3)]) "m.a" (JsVal.bool false))
        "m.a" = JsVal.obj 3
      ∧ getAccountDataFromServer
          (setAccountData (mkAdapter [("m.a", JsVal.obj 3)]) "m.a" (JsVal.bool false))
          "m.a" = JsVal.obj 3)
    ∧ (getAccountData (setAccountData (mkAdapter []) "m.b" JsVal.null) "m.b"
          = JsVal.null
      ∧ getAccountDataFromServer (setAccountData (mkAdapter []) "m.b" JsVal.null) "m.b"
          = JsVal.null) :=
  ⟨(C10_falsy_pending_ignored
      (setAccountData (mkAdapter [("m.a", JsVal.obj 3)]) "m.a" (JsVal.bool false))
      "m.a" (JsVal.bool false) rfl rfl).1 (JsVal.obj 3) rfl,
   (C10_falsy_pending_ignored
      (setAccountData (mkAdapter []) "m.b" JsVal.null)
      "m.b" JsVal.null rfl rfl).2 rfl⟩

/-- Claim C5 counterexample: after `write(t, obj 1)` then `write(t, false)`,
the claim says `read(t)` returns the second content `false`; the code
returns `null`, because the falsy pending value is skipped and no existing
entry is present. -/
theorem C5_rewrite_counterexample :
    getAccountData
        (setAccountData (setAccountData (mkAdapter []) "m.x" (JsVal.obj 1))
          "m.x" (JsVal.bool false))
        "m.x" = JsVal.null
    ∧ JsVal.null ≠ JsVal.bool false := by
  constructor
  · rfl
  · decide

/-- Claim C5 (amended): re-writing a type is last-write-wins and does not
duplicate replay steps.  After `write(t, c₁)` then `write(t, c₂)`:
`read(t)` returns `c₂` provided `c₂` is truthy (the counterexample forces
this caveat, and only this conjunct carries it); and for all contents
`c₁`, `c₂` — falsy ones included, since the write path is unguarded — the
pending map is exactly as if only `write(t, c₂)` had happened; the key
sequence — hence t's replay position, the position of its first insertion —
is unchanged from after the first write; the pending map holds exactly one
entry for `t`, with content `c₂`; and `apply`'s trace on the resulting
capture is exactly one call per pending entry, so it sends exactly one
entry for `t`. -/
theorem C5_amended_rewrite_last_write_wins (s : AdapterState) (t : String)
    (c₁ c₂ : JsVal) (client : ClientBehavior) (csk kbi ks : Option JsVal)
    (hnd : (s.values.map Prod.fst).Nodup)
    (hok : ∀ i t' c', client i t' c' = Except.ok ()) :
    (truthy c₂ = true →
        getAccountData (setAccountData (setAccountData s t c₁) t c₂) t = c₂)
    ∧ (setAccountData (setAccountData s t c₁) t c₂).values
        = setIns s.values t c₂
    ∧ (setAccountData (setAccountData s t c₁) t c₂).values.map Prod.fst
        = (setAccountData s t c₁).values.map Prod.fst
    ∧ (setAccountData (setAccountData s t c₁) t c₂).values.filter
        (fun p => p.1 = t) = [(t, c₂)]
    ∧ (applyOp client
          ⟨some (setAccountData (setAccountData s t c₁) t c₂).values,
           csk, kbi, ks⟩).1
        = (setAccountData (setAccountData s t c₁) t c₂).values.map
            (fun p => NetCall.setAccountData p.1 p.2) := by
  refine ⟨?_, ?_, ?_, ?_, ?_⟩
  · intro htruthy
    simp [getAccountData, setAccountData, setIns_setIns_same,
          mapGet_setIns_self, htruthy]
  · simp [setAccountData, setIns_setIns_same]
  · simp only [setAccountData, setIns_setIns_same]
    exact keys_setIns_indep s.values t c₂ c₁
  · simp only [setAccountData, setIns_setIns_same]
    exact filter_setIns_self s.values t c₂ hnd
  · simp [applyOp, applyGo_all_ok client hok]

/-- Witness for the amended C5: from an empty adapter, write `obj 1` then
`obj 2` for the same type; the read returns `obj 2`, the pending map is the
single entry `(t, obj 2)`, and apply sends exactly that one call.  A second
instantiation with the falsy second content `false` shows the
exactly-one-entry conjunct holding without any truthiness assumption. -/
theorem C5_amended_rewrite_last_write_wins_witness :
    getAccountData
        (setAccountData (setAccountData (mkAdapter []) "m.x" (JsVal.obj 1))
          "m.x" (JsVal.obj 2)) "m.x" = JsVal.obj 2
    ∧ (setAccountData (setAccountData (mkAdapter []) "m.x" (JsVal.obj 1))
          "m.x" (JsVal.obj 2)).values = setIns (mkAdapter []).values "m.x" (JsVal.obj 2)
    ∧ (setAccountData (setAccountData (mkAdapter []) "m.x" (JsVal.obj 1))
          "m.x" (JsVal.obj 2)).values.map Prod.fst
        = (setAccountData (mkAdapter []) "m.x" (JsVal.obj 1)).values.map Prod.fst
    ∧ (setAccountData (setAccountData (mkAdapter []) "m.x" (JsVal.obj 1))
          "m.x" (JsVal.obj 2)).values.filter (fun p => p.1 = "m.x")
        = [("m.x", JsVal.obj 2)]
    ∧ (applyOp (fun _ _ _ => Except.ok ())
          ⟨some (setAccountData (setAccountData (mkAdapter []) "m.x" (JsVal.obj 1))
              "m.x" (JsVal.obj 2)).values, none, none, none⟩).1
        = (setAccountData (setAccountData (mkAdapter []) "m.x" (JsVal.obj 1))
            "m.x" (JsVal.obj 2)).values.map
            (fun p => NetCall.setAccountData p.1 p.2)
    ∧ (setAccountData (setAccountData (mkAdapter []) "m.y" (JsVal.obj 1))
          "m.y" (JsVal.bool false)).values.filter (fun p => p.1 = "m.y")
        = [("m.y", JsVal.bool false)] :=
  have hmain := C5_amended_rewrite_last_write_wins (mkAdapter []) "m.x" (JsVal.obj 1)
    (JsVal.obj 2) (fun _ _ _ => Except.ok ()) none none none
    (by simp [mkAdapter]) (fun _ _ _ => rfl)
  have hfalsy := C5_amended_rewrite_last_write_wins (mkAdapter []) "m.y" (JsVal.obj 1)
    (JsVal.bool false) (fun _ _ _ => Except.ok ()) none none none
    (by simp [mkAdapter]) (fun _ _ _ => rfl)
  ⟨hmain.1 rfl, hmain.2.1, hmain.2.2.1, hmain.2.2.2.1, hmain.2.2.2.2,
   hfalsy.2.2.2.1⟩

/-- Claim C6: every `write(t, c)` records the pending value synchronously
(`_values.get(t)` is `c` immediately) and schedules exactly one deferred
notification carrying `(t, c)`, appended to the microtask queue that is
flushed at the next scheduling boundary, after the current synchronous
execution and before any later turn.  A subscriber that registers in the
same synchronous step — even after a whole sequence of writes — still
receives every queued notification, and across multiple writes the
notifications reach it in write order; the flush leaves no notification
behind for a later turn. -/
theorem C6_deferred_notifications_in_write_order (s : AdapterState)
    (t : String) (c : JsVal) (ws : List (String × JsVal)) (l : Nat)
    (hempty : s.tasks = []) (hfresh : l ∉ s.listeners) :
    mapGet (setAccountData s t c).values t = some c
    ∧ (setAccountData s t c).tasks = s.tasks ++ [(t, c)]
    ∧ deliveredTo l (flushDeliveries (subscribe (writeAll s ws) l)) = ws
    ∧ (flush (subscribe (writeAll s ws) l)).tasks = [] := by
  refine ⟨?_, ?_, ?_, ?_⟩
  · simp [setAccountData, mapGet_setIns_self]
  · simp [setAccountData]
  · have ht : (subscribe (writeAll s ws) l).tasks = ws := by
      simp [subscribe, writeAll_tasks, hempty]
    have hl : (subscribe (writeAll s ws) l).listeners = s.listeners ++ [l] := by
      simp [subscribe, writeAll_listeners]
    rw [flushDeliveries, ht, hl]
    exact deliveredTo_flatMap_subscribed l s.listeners hfresh ws
  · simp [flush]

/-- Witness for C6: two writes from a fresh adapter, then a subscription in
the same synchronous step; the flush delivers both notifications to the
subscriber, in write order, and clears the queue. -/
theorem C6_deferred_notifications_in_write_order_witness :
    mapGet (setAccountData (mkAdapter []) "m.a" (JsVal.obj 1)).values "m.a"
        = some (JsVal.obj 1)
    ∧ (setAccountData (mkAdapter []) "m.a" (JsVal.obj 1)).tasks
        = (mkAdapter []).tasks ++ [("m.a", JsVal.obj 1)]
    ∧ deliveredTo 0 (flushDeliveries (subscribe
          (writeAll (mkAdapter []) [("m.a", JsVal.obj 1), ("m.b", JsVal.obj 2)]) 0))
        = [("m.a", JsVal.obj 1), ("m.b", JsVal.obj 2)]
    ∧ (flush (subscribe
          (writeAll (mkAdapter []) [("m.a", JsVal.obj 1), ("m.b", JsVal.obj 2)]) 0)).tasks
        = [] :=
  C6_deferred_notifications_in_write_order (mkAdapter []) "m.a" (JsVal.obj 1)
    [("m.a", JsVal.obj 1), ("m.b", JsVal.obj 2)] 0 rfl (by simp [mkAdapter])

/-- Claim C7: the cache shape and the authoritative shape of
`CrossSigningCallbacks` are views of the same backing `privateKeys` map.
After `storeCrossSigningKeyCache(t, k)`, both `getCrossSigningKey(t, p)`
(authoritative) and `getCrossSigningKeyCache(t, p)` (cache) return `k` for
every expected-public-key argument `p`; a `saveCrossSigningKeys` bulk write
is visible to the cache-shape get; and the expected-public-key argument
never affects the result of either get shape. -/
theorem C7_cross_signing_store_unification (s : CrossSigningState) (t : String)
    (k : Key) (p p' : String) (pks : List (String × Key))
    (hnd : (pks.map Prod.fst).Nodup) (hmem : (t, k) ∈ pks) :
    getCrossSigningKey (storeCrossSigningKeyCache s t k) t p = some k
    ∧ getCrossSigningKeyCache (storeCrossSigningKeyCache s t k) t p = some k
    ∧ getCrossSigningKeyCache (saveCrossSigningKeys s pks) t p = some k
    ∧ getCrossSigningKey s t p = getCrossSigningKey s t p'
    ∧ getCrossSigningKeyCache s t p = getCrossSigningKeyCache s t p' := by
  refine ⟨?_, ?_, ?_, rfl, rfl⟩
  · simp [getCrossSigningKey, storeCrossSigningKeyCache, mapGet_setIns_self]
  · simp [getCrossSigningKeyCache, getCrossSigningKey, storeCrossSigningKeyCache,
          mapGet_setIns_self]
  · simp only [getCrossSigningKeyCache, getCrossSigningKey, saveCrossSigningKeys]
    exact foldl_setIns_get_mem t k pks hnd hmem s.privateKeys

/-- Witness for C7: store the master key through the cache shape and read
it back through the authoritative shape under two different expected public
keys; save it through the authoritative shape and read it back through the
cache shape. -/
theorem C7_cross_signing_store_unification_witness :
    getCrossSigningKey
        (storeCrossSigningKeyCache ⟨[]⟩ "master" [1, 2, 3]) "master" "pubA"
        = some [1, 2, 3]
    ∧ getCrossSigningKeyCache
        (storeCrossSigningKeyCache ⟨[]⟩ "master" [1, 2, 3]) "master" "pubA"
        = some [1, 2, 3]
    ∧ getCrossSigningKeyCache
        (saveCrossSigningKeys ⟨[]⟩ [("master", [1, 2, 3]), ("self_signing", [4])])
        "master" "pubB"
        = some [1, 2, 3]
    ∧ getCrossSigningKey ⟨[]⟩ "master" "pubA"
        = getCrossSigningKey ⟨[]⟩ "master" "pubB"
    ∧ getCrossSigningKeyCache ⟨[]⟩ "master" "pubA"
        = getCrossSigningKeyCache ⟨[]⟩ "master" "pubB" :=
  C7_cross_signing_store_unification ⟨[]⟩ "master" [1, 2, 3] "pubA" "pubB"
    [("master", [1, 2, 3]), ("self_signing", [4])]
    (by decide) (by decide)

/-- Claim C9: `saveCrossSigningKeys(keysByType)` is one synchronous batch
(a single pure fold with no suspension point, so in the single-threaded
host no reader can interleave with it): afterwards, `get` of every type
present in the batch returns the batch's key for that type, and `get` of
every type not present returns exactly what it returned before the save. -/
theorem C9_saveAll_batch_frame (s : CrossSigningState)
    (pks : List (String × Key)) (hnd : (pks.map Prod.fst).Nodup) :
    (∀ t k p, (t, k) ∈ pks →
        getCrossSigningKey (saveCrossSigningKeys s pks) t p = some k)
    ∧ (∀ t p, t ∉ pks.map Prod.fst →
        getCrossSigningKey (saveCrossSigningKeys s pks) t p
          = getCrossSigningKey s t p) := by
  constructor
  · intro t k p hmem
    simp only [getCrossSigningKey, saveCrossSigningKeys]
    exact foldl_setIns_get_mem t k pks hnd hmem s.privateKeys
  · intro t p hnot
    simp only [getCrossSigningKey, saveCrossSigningKeys]
    exact foldl_setIns_get_not_mem t pks hnot s.privateKeys

/-- Witness for C9: a two-type bulk save over a store that already holds
`user_signing`; both saved types read back their new keys and the untouched
type reads back its old key. -/
theorem C9_saveAll_batch_frame_witness :
    getCrossSigningKey
        (saveCrossSigningKeys ⟨[("user_signing", [9])]⟩
          [("master", [1]), ("self_signing", [2])]) "master" "p" = some [1]
    ∧ getCrossSigningKey
        (saveCrossSigningKeys ⟨[("user_signing", [9])]⟩
          [("master", [1]), ("self_signing", [2])]) "user_signing" "p"
        = getCrossSigningKey ⟨[("user_signing", [9])]⟩ "user_signing" "p" :=
  ⟨(C9_saveAll_batch_frame ⟨[("user_signing", [9])]⟩
      [("master", [1]), ("self_signing", [2])] (by decide)).1
      "master" [1] "p" (by decide),
   (C9_saveAll_batch_frame ⟨[("user_signing", [9])]⟩
      [("master", [1]), ("self_signing", [2])] (by decide)).2
      "user_signing" "p" (by decide)⟩

/-- Claim C8: `getSecretStorageKey` iterates the descriptor's candidate key
IDs in the given order and returns the first `(keyId, key)` pair this cache
holds, `none` when no candidate is held (falling off the loop, never
raising — the embedding is a total function into `Option`); the
`secretName` argument never affects the result. -/
theorem C8_resolve_first_held_candidate (s : SSSSState) (ids : List String)
    (n₁ n₂ : String) (pre post : List String) (kid : String) (k : Key)
    (hpre : ∀ j ∈ pre, mapGet s.privateKeys j = none)
    (hk : mapGet s.privateKeys kid = some k) :
    getSecretStorageKey s ids n₁ = getSecretStorageKey s ids n₂
    ∧ getSecretStorageKey s (pre ++ kid :: post) n₁ = some (kid, k)
    ∧ ((∀ j ∈ ids, mapGet s.privateKeys j = none) →
        getSecretStorageKey s ids n₁ = none) :=
  ⟨getSecretStorageKey_name_irrel s ids n₁ n₂,
   getSecretStorageKey_first s n₁ kid k pre post hpre hk,
   getSecretStorageKey_none s n₁ ids⟩

/-- Witness for C8, the spec's resolution scenario: the cache holds
`keyId2` only; a descriptor listing `[keyId1, keyId2]` resolves to
`(keyId2, key)` under either secret name, and a descriptor listing only
uncached IDs resolves to `none`. -/
theorem C8_resolve_first_held_candidate_witness :
    getSecretStorageKey (addPrivateKey ⟨[]⟩ "keyId2" [7]) ["keyId3"] "m.secret.a"
        = getSecretStorageKey (addPrivateKey ⟨[]⟩ "keyId2" [7]) ["keyId3"] "m.secret.b"
    ∧ getSecretStorageKey (addPrivateKey ⟨[]⟩ "keyId2" [7])
        (["keyId1"] ++ "keyId2" :: []) "m.secret.a" = some ("keyId2", [7])
    ∧ getSecretStorageKey (addPrivateKey ⟨[]⟩ "keyId2" [7]) ["keyId3"] "m.secret.a"
        = none :=
  ⟨(C8_resolve_first_held_candidate (addPrivateKey ⟨[]⟩ "keyId2" [7]) ["keyId3"]
      "m.secret.a" "m.secret.b" ["keyId1"] [] "keyId2" [7]
      (by decide) (by decide)).1,
   (C8_resolve_first_held_candidate (addPrivateKey ⟨[]⟩ "keyId2" [7]) ["keyId3"]
      "m.secret.a" "m.secret.b" ["keyId1"] [] "keyId2" [7]
      (by decide) (by decide)).2.1,
   (C8_resolve_first_held_candidate (addPrivateKey ⟨[]⟩ "keyId2" [7]) ["keyId3"]
      "m.secret.a" "m.secret.b" ["keyId1"] [] "keyId2" [7]
      (by decide) (by decide)).2.2 (by decide)⟩

/-- Claim C1 counterexample: snapshot independence fails on the code.
`buildOperation` passes the adapter's `_values` Map by reference, so with a
heap holding one (empty) pending map at address 0, building the operation
and then writing a new type through the builder changes the already-built
operation's replay set from `[]` to the one-entry list. -/
theorem C1_snapshot_counterexample :
    opReplaySet
        (builderSetAccountData ⟨[[]]⟩ ⟨0, none, none, none⟩
          "m.new_setting" (JsVal.obj 1))
        (buildOperation ⟨0, none, none, none⟩)
      ≠ opReplaySet ⟨[[]]⟩ (buildOperation ⟨0, none, none, none⟩) := by
  decide

/-- Claim C1 (amended): `buildOperation` does not snapshot — the built
operation aliases the builder's pending account-data Map.  A subsequent
`setAccountData(t, c)` on the builder is observable through the already
built operation: its replay set becomes exactly the builder's updated
pending map (the previous replay set with `(t, c)` written into it), so the
entries the operation replays are those pending at apply time, not those
pending at build time. -/
theorem C1_amended_operation_aliases_builder (h : Heap) (b : BuilderRef)
    (t : String) (c : JsVal) (ha : b.valuesAddr < h.maps.length) :
    opReplaySet (builderSetAccountData h b t c) (buildOperation b)
      = setIns (opReplaySet h (buildOperation b)) t c := by
  simp only [opReplaySet, builderSetAccountData, buildOperation]
  exact heapGet_heapSet_self h b.valuesAddr _ ha

/-- Witness for the amended C1: on the one-map heap, the post-build write of
a new type lands in the built operation's replay set. -/
theorem C1_amended_operation_aliases_builder_witness :
    opReplaySet
        (builderSetAccountData ⟨[[]]⟩ ⟨0, none, none, none⟩
          "m.new_setting" (JsVal.obj 1))
        (buildOperation ⟨0, none, none, none⟩)
      = setIns (opReplaySet ⟨[[]]⟩ (buildOperation ⟨0, none, none, none⟩))
          "m.new_setting" (JsVal.obj 1) :=
  C1_amended_operation_aliases_builder ⟨[[]]⟩ ⟨0, none, none, none⟩
    "m.new_setting" (JsVal.obj 1) (by decide)

end EncryptionSetup
